import Mathlib

/-!
A shallow embedding of `src/stack.rs`: a Treiber stack with hazard-pointer
memory reclamation.  The embedding models the per-handle operations
(`new`, `push`, `pop`, `gc`, `clone`, `drop`) as explicit state passing over
a `State` that carries the shared stack (`head` and the `handle_data`
registry of hazard records), together with the memory model the raw
pointers of the source need: a heap of allocated nodes keyed by address,
and a fresh-address allocator counter.  Pointers are `Option Nat`
(`none` is the null pointer).  The model is the sequential semantics of the
source: every compare-and-swap succeeds on its first attempt, which is the
behaviour of a handle that runs with no interleaved writers.
-/

namespace HPStack

/-- A stack node (`struct Node<T>`): `data` is the element and `tail` the
address of the node below it, `none` standing for the null pointer. -/
structure Node (T : Type) where
  data : T
  tail : Option Nat
deriving DecidableEq

/-- A hazard record (`struct Hazard<T>`): the `alive` flag and the published
node address (`none` for the null pointer).  The cache-line padding field of
the source has no observable behaviour and is not modelled. -/
structure Hazard where
  alive : Bool
  ptr : Option Nat
deriving DecidableEq

/-- `Hazard::new()`: alive, publishing the null pointer. -/
def Hazard.new : Hazard := { alive := true, ptr := none }

/-- The shared stack plus the memory model: `handle_data` is the registry of
hazard records (the index is the record's identity; the source allocates the
records separately and never frees them), `head` the atomic head pointer,
`nodes` the heap of allocated stack nodes keyed by address, `next_addr` the
allocator counter (addresses are fresh, never reused), and `stack_alive`
whether the shared `Stack` allocation itself is still live (the teardown in
the last handle's `drop` sets it to `false`). -/
structure State (T : Type) where
  handle_data : List Hazard
  head : Option Nat
  nodes : List (Nat × Node T)
  next_addr : Nat
  stack_alive : Bool
deriving DecidableEq

/-- `struct StackHandle<T>` as seen by one owner: the index of its own hazard
record inside the registry, and the private retire list `to_free` of node
addresses it unlinked but has not yet freed. -/
structure StackHandle where
  hazard : Nat
  to_free : List Nat
deriving DecidableEq

/-- Reading a node from the heap at an address. -/
def hlookup {T : Type} : List (Nat × Node T) → Nat → Option (Node T)
  | [], _ => none
  | (k, n) :: rest, a => if a = k then some n else hlookup rest a

/-- In-place update of the hazard record at index `i` of the registry
(a store through the record's pointer in the source). -/
def modifyIdx (f : Hazard → Hazard) : List Hazard → Nat → List Hazard
  | [], _ => []
  | hz :: rest, 0 => f hz :: rest
  | hz :: rest, n + 1 => hz :: modifyIdx f rest n

/-- `StackHandle::new()`: fresh shared state whose registry holds one fresh
hazard record, an empty stack, and a handle bound to that record with an
empty retire list. -/
def StackHandle.new (T : Type) : State T × StackHandle :=
  ({ handle_data := [Hazard.new], head := none, nodes := [], next_addr := 0,
     stack_alive := true },
   { hazard := 0, to_free := [] })

/-- `StackHandle::push`: allocate a node whose tail is the current head and
compare-and-swap it in as the new head; sequentially the swap succeeds at
once.  The handle itself is unchanged. -/
def push {T : Type} (st : State T) (h : StackHandle) (val : T) :
    State T × StackHandle :=
  let n := st.next_addr
  ({ st with nodes := (n, { data := val, tail := st.head }) :: st.nodes,
             head := some n, next_addr := n + 1 }, h)

/-- `StackHandle::pop`: read the head; if null, return `none`; otherwise
publish the read address in the handle's own hazard record, swing the head
to the node's tail, move the value out, and append the unlinked node's
address to the private retire list.  After a successful compare-and-swap the
hazard publication is left in place — the source clears it only after a
failed attempt, and sequentially no attempt fails.  A dangling head address
is undefined behaviour in the source; the model makes that case a no-op
returning `none`. -/
def pop {T : Type} (st : State T) (h : StackHandle) :
    Option T × State T × StackHandle :=
  match st.head with
  | none => (none, st, h)
  | some snapshot =>
    match hlookup st.nodes snapshot with
    | none => (none, st, h)
    | some nd =>
      let reg :=
        modifyIdx (fun hz => { hz with ptr := some snapshot })
          st.handle_data h.hazard
      (some nd.data,
       { st with handle_data := reg, head := nd.tail },
       { h with to_free := h.to_free ++ [snapshot] })

/-- The registry snapshot `gc` takes under the reader lock: the published
pointer of every hazard record whose `alive` flag is set (a null
publication contributes `none`). -/
def gcSnapshot (reg : List Hazard) : List (Option Nat) :=
  reg.filterMap (fun hz => if hz.alive then some hz.ptr else none)

/-- The retired addresses `gc` keeps: those that occur in the snapshot. -/
def gcKept {T : Type} (st : State T) (h : StackHandle) : List Nat :=
  h.to_free.filter (fun a => decide (some a ∈ gcSnapshot st.handle_data))

/-- The retired addresses `gc` frees: those absent from the snapshot. -/
def gcFreed {T : Type} (st : State T) (h : StackHandle) : List Nat :=
  h.to_free.filter (fun a => decide (some a ∉ gcSnapshot st.handle_data))

/-- `StackHandle::gc`: return at once when the retire list is empty;
otherwise snapshot the alive records' publications once, then walk the
retire list in order, keeping every address that occurs in the snapshot and
freeing the node of every address that does not. -/
def gc {T : Type} (st : State T) (h : StackHandle) : State T × StackHandle :=
  if h.to_free.isEmpty then (st, h)
  else
    ({ st with nodes := st.nodes.filter (fun p => decide (p.1 ∉ gcFreed st h)) },
     { h with to_free := gcKept st h })

/-- The scan inside `clone`'s `new_hazard`: the index of the first hazard
record whose `alive` flag is unset, if any. -/
def findDeadIdx : List Hazard → Option Nat
  | [] => none
  | hz :: rest => if hz.alive then (findDeadIdx rest).map (· + 1) else some 0

/-- `Clone for StackHandle`: under the registry's writer lock, recycle the
first dead hazard record (reset its publication to null, mark it alive) or,
when every record is alive, append a brand-new record; the new handle is
bound to that record, shares the same stack state, and starts with an empty
retire list. -/
def clone {T : Type} (st : State T) (_h : StackHandle) :
    State T × StackHandle :=
  match findDeadIdx st.handle_data with
  | some i =>
    let reg :=
      modifyIdx (fun hz => { hz with ptr := none, alive := true })
        st.handle_data i
    ({ st with handle_data := reg }, { hazard := i, to_free := [] })
  | none =>
    ({ st with handle_data := st.handle_data ++ [Hazard.new] },
     { hazard := st.handle_data.length, to_free := [] })

/-- The drain loop of `Drop for StackHandle`
(`while !self.to_free.is_empty() { self.gc() }`) with explicit fuel:
`none` models the loop not terminating within `fuel` passes of `gc`. -/
def drainLoop {T : Type} : Nat → State T → StackHandle →
    Option (State T × StackHandle)
  | 0, st, h => if h.to_free.isEmpty then some (st, h) else none
  | fuel + 1, st, h =>
    if h.to_free.isEmpty then some (st, h)
    else
      let p := gc st h
      drainLoop fuel p.1 p.2

/-- The first store of `Drop for StackHandle`:
`(*self.hazard).alive.store(false, Relaxed)`. -/
def markDead {T : Type} (st : State T) (h : StackHandle) : State T :=
  let reg := modifyIdx (fun hz => { hz with alive := false }) st.handle_data h.hazard
  { st with handle_data := reg }

/-- `Drop for StackHandle`: store `false` into the handle's own `alive` flag,
drain the retire list by repeated `gc`, then, under the writer lock, tear
the shared stack state down exactly when every registry record is dead.
Dropping the `Box<Stack<T>>` frees the `Stack` allocation alone — neither
the nodes still reachable from `head` nor the separately allocated hazard
records — so teardown only clears `stack_alive`. -/
def dropHandle {T : Type} (fuel : Nat) (st : State T) (h : StackHandle) :
    Option (State T) :=
  match drainLoop fuel (markDead st h) h with
  | none => none
  | some (st2, _) =>
    if st2.handle_data.all (fun hz => !hz.alive)
    then some { st2 with stack_alive := false }
    else some st2

/-- Iterated `push` of a list of values through one handle. -/
def pushAll {T : Type} (st : State T) (h : StackHandle) :
    List T → State T × StackHandle
  | [] => (st, h)
  | v :: vs =>
    let p := push st h v
    pushAll p.1 p.2 vs

/-- `n` successive `pop`s through one handle, collecting the results. -/
def popAll {T : Type} : Nat → State T → StackHandle →
    List (Option T) × State T × StackHandle
  | 0, st, h => ([], st, h)
  | n + 1, st, h =>
    let p := pop st h
    let q := popAll n p.2.1 p.2.2
    (p.1 :: q.1, q.2)

/-- One `push`/`pop` cycle through a handle. -/
def pushPopCycle {T : Type} (v : T) (sh : State T × StackHandle) :
    State T × StackHandle :=
  let p := push sh.1 sh.2 v
  (pop p.1 p.2).2

/-- `n` push/pop cycles of the value `v` on a freshly created handle,
never calling `gc` — the workload of the spec's Scenario 4. -/
def cycles {T : Type} (v : T) : Nat → State T × StackHandle
  | 0 => StackHandle.new T
  | n + 1 => pushPopCycle v (cycles v n)

/-- The nodes the heap holds after `n` push/pop cycles of `v`: addresses
`n-1, …, 0`, each an unlinked node carrying `v`. -/
def revNodes (T : Type) (v : T) (n : Nat) : List (Nat × Node T) :=
  ((List.range n).reverse).map (fun i => (i, { data := v, tail := none }))

/-- The nodes of a heap reachable by following the head chain: `Chain nodes p
vs` says the chain starting at pointer `p` is allocated and carries the
values `vs` top-down. -/
inductive Chain {T : Type} (nodes : List (Nat × Node T)) :
    Option Nat → List T → Prop
  | nil : Chain nodes none []
  | cons {a : Nat} {v : T} {t : Option Nat} {vs : List T} :
      hlookup nodes a = some { data := v, tail := t } →
      Chain nodes t vs →
      Chain nodes (some a) (v :: vs)

/-- An address reachable from a pointer by following tail links through the
heap. -/
inductive Reach {T : Type} (nodes : List (Nat × Node T)) :
    Option Nat → Nat → Prop
  | here {a : Nat} {nd : Node T} :
      hlookup nodes a = some nd → Reach nodes (some a) a
  | there {a b : Nat} {nd : Node T} :
      hlookup nodes a = some nd → Reach nodes nd.tail b →
      Reach nodes (some a) b

/-- Heap well-formedness: every allocated address is below the allocator
counter, so a fresh allocation collides with nothing. -/
def addrsOk {T : Type} (st : State T) : Prop :=
  ∀ p ∈ st.nodes, p.1 < st.next_addr

/-- The hazard record at index `i` of the registry (reading through the
record's pointer; `Hazard.new` is a junk default for an out-of-range index,
which a well-formed handle never uses). -/
def regGet (reg : List Hazard) (i : Nat) : Hazard :=
  reg.getD i Hazard.new

/-- Scenario (spec §8, Scenario 2), step 0: handle `A` is created. -/
def scnA0 : State Nat × StackHandle := StackHandle.new Nat

/-- Scenario 2, step 1: `push(A, 10)`. -/
def scnA1 : State Nat × StackHandle := push scnA0.1 scnA0.2 10

/-- Scenario 2, step 2: `B = duplicate(A)`. -/
def scnB : State Nat × StackHandle := clone scnA1.1 scnA1.2

/-- Scenario 2, step 3: `pop(B)`. -/
def scnPopB : Option Nat × State Nat × StackHandle := pop scnB.1 scnB.2

/-- Scenario 2, step 4: `pop(A)` on the state `pop(B)` left. -/
def scnPopA : Option Nat × State Nat × StackHandle :=
  pop scnPopB.2.1 scnA1.2

/-- Witness state: a fresh handle that pushed the value 5 once. -/
def wPush : State Nat × StackHandle := push (StackHandle.new Nat).1 (StackHandle.new Nat).2 5

/-- Witness state: `wPush` followed by a `pop` (which returns `some 5`). -/
def wPop : Option Nat × State Nat × StackHandle := pop wPush.1 wPush.2

/-- The state `dropHandle 0 wPush.1 wPush.2` produces: the only record is
dead, so the shared state is torn down; the pushed node, still reachable
from `head`, is untouched. -/
def wDropped : State Nat :=
  { handle_data := [{ alive := false, ptr := none }], head := some 0,
    nodes := [(0, { data := 5, tail := none })], next_addr := 1,
    stack_alive := false }

/-- The state `dropHandle 0` produces from a freshly created handle. -/
def wNewDropped : State Nat :=
  { handle_data := [{ alive := false, ptr := none }], head := none,
    nodes := [], next_addr := 0, stack_alive := false }

end HPStack

namespace HPStack

theorem hlookup_nil {T : Type} (a : Nat) :
    hlookup ([] : List (Nat × Node T)) a = none := rfl

theorem hlookup_cons {T : Type} (k : Nat) (n : Node T)
    (rest : List (Nat × Node T)) (a : Nat) :
    hlookup ((k, n) :: rest) a = if a = k then some n else hlookup rest a := rfl

theorem hlookup_lt {T : Type} {nodes : List (Nat × Node T)} {m a : Nat}
    {nd : Node T} (hok : ∀ p ∈ nodes, p.1 < m) (hl : hlookup nodes a = some nd) :
    a < m := by
  induction nodes with
  | nil => simp [hlookup] at hl
  | cons p rest ih =>
    obtain ⟨k, n⟩ := p
    rw [hlookup_cons] at hl
    by_cases hak : a = k
    · subst hak
      exact hok (a, n) (List.mem_cons_self _ _)
    · rw [if_neg hak] at hl
      exact ih (fun q hq => hok q (List.mem_cons_of_mem _ hq)) hl

theorem Chain.extend {T : Type} {nodes : List (Nat × Node T)} {m : Nat}
    {nd : Node T} {p : Option Nat} {vs : List T}
    (hok : ∀ q ∈ nodes, q.1 < m) (hc : Chain nodes p vs) :
    Chain ((m, nd) :: nodes) p vs := by
  induction hc with
  | nil => exact Chain.nil
  | cons hl _ ih =>
    refine Chain.cons ?_ ih
    rw [hlookup_cons, if_neg (Nat.ne_of_lt (hlookup_lt hok hl))]
    exact hl

theorem chain_nil_head {T : Type} {nodes : List (Nat × Node T)} {p : Option Nat}
    (hc : Chain nodes p []) : p = none := by
  cases hc
  rfl

theorem chain_cons_head {T : Type} {nodes : List (Nat × Node T)} {p : Option Nat}
    {v : T} {vs : List T} (hc : Chain nodes p (v :: vs)) :
    ∃ a t, p = some a ∧ hlookup nodes a = some { data := v, tail := t } ∧
      Chain nodes t vs := by
  cases hc with
  | cons hl hrest => exact ⟨_, _, rfl, hl, hrest⟩

theorem chain_push {T : Type} {st : State T} (h : StackHandle) (v : T)
    {vs : List T} (hok : addrsOk st) (hc : Chain st.nodes st.head vs) :
    Chain (push st h v).1.nodes (push st h v).1.head (v :: vs) ∧
      addrsOk (push st h v).1 := by
  constructor
  · show Chain ((st.next_addr, { data := v, tail := st.head }) :: st.nodes)
      (some st.next_addr) (v :: vs)
    refine Chain.cons ?_ (Chain.extend hok hc)
    rw [hlookup_cons, if_pos rfl]
  · intro p hp
    have hp' : p ∈ (st.next_addr, ({ data := v, tail := st.head } : Node T))
        :: st.nodes := hp
    show p.1 < st.next_addr + 1
    rcases List.mem_cons.mp hp' with h1 | h2
    · rw [h1]
      exact Nat.lt_succ_self _
    · exact Nat.lt_succ_of_lt (hok p h2)

theorem pushAll_chain {T : Type} (vs : List T) :
    ∀ (st : State T) (h : StackHandle) (ws : List T),
      addrsOk st → Chain st.nodes st.head ws →
      Chain (pushAll st h vs).1.nodes (pushAll st h vs).1.head
        (vs.reverse ++ ws) ∧ addrsOk (pushAll st h vs).1 := by
  induction vs with
  | nil =>
    intro st h ws hok hc
    exact ⟨by simpa using hc, hok⟩
  | cons v vs ih =>
    intro st h ws hok hc
    have hstep := chain_push h v hok hc
    have hrec := ih (push st h v).1 (push st h v).2 (v :: ws) hstep.2 hstep.1
    simp only [pushAll]
    constructor
    · have : vs.reverse ++ v :: ws = (v :: vs).reverse ++ ws := by
        simp [List.reverse_cons, List.append_assoc]
      exact this ▸ hrec.1
    · exact hrec.2

theorem pop_none {T : Type} {st : State T} (h : StackHandle)
    (hh : st.head = none) : pop st h = (none, st, h) := by
  simp [pop, hh]

theorem pop_some {T : Type} {st : State T} (h : StackHandle) {a : Nat} {v : T}
    {t : Option Nat} (hh : st.head = some a)
    (hl : hlookup st.nodes a = some { data := v, tail := t }) :
    pop st h =
      (some v,
       { st with
           handle_data := modifyIdx (fun hz => { hz with ptr := some a })
             st.handle_data h.hazard,
           head := t },
       { h with to_free := h.to_free ++ [a] }) := by
  simp [pop, hh, hl]

theorem popAll_chain {T : Type} (vs : List T) :
    ∀ (st : State T) (h : StackHandle), Chain st.nodes st.head vs →
      (popAll (vs.length + 1) st h).1 = vs.map some ++ [none] := by
  induction vs with
  | nil =>
    intro st h hc
    simp [popAll, pop_none h (chain_nil_head hc)]
  | cons v vs ih =>
    intro st h hc
    obtain ⟨a, t, hh, hl, hrest⟩ := chain_cons_head hc
    simp only [List.length_cons, popAll, pop_some h hh hl, List.map_cons,
      List.cons_append]
    exact congrArg (some v :: ·) (ih _ _ hrest)

/-- C1: for every sequence of `N` pushes through a single handle with no
concurrent poppers, `N` subsequent pops on that handle return the pushed
values in exact reverse push order, and an `(N+1)`-th pop returns the absent
result (`none`). -/
theorem hp_strict_lifo (T : Type) (vs : List T) :
    (popAll (vs.length + 1)
        (pushAll (StackHandle.new T).1 (StackHandle.new T).2 vs).1
        (pushAll (StackHandle.new T).1 (StackHandle.new T).2 vs).2).1 =
      vs.reverse.map some ++ [none] := by
  have hok : addrsOk (StackHandle.new T).1 := by
    intro p hp
    simp [StackHandle.new] at hp
  have hc : Chain (StackHandle.new T).1.nodes (StackHandle.new T).1.head [] :=
    Chain.nil
  have hchain := pushAll_chain vs (StackHandle.new T).1 (StackHandle.new T).2
    [] hok hc
  have hpop := popAll_chain (vs.reverse ++ [])
    (pushAll (StackHandle.new T).1 (StackHandle.new T).2 vs).1
    (pushAll (StackHandle.new T).1 (StackHandle.new T).2 vs).2 hchain.1
  simpa using hpop

/-- C1, concrete instance: Scenario 1 of the spec — `push 1; push 2; push 3`
then four pops return `3, 2, 1, empty`. -/
theorem hp_strict_lifo_scenario :
    (popAll 4
        (pushAll (StackHandle.new Nat).1 (StackHandle.new Nat).2 [1, 2, 3]).1
        (pushAll (StackHandle.new Nat).1 (StackHandle.new Nat).2 [1, 2, 3]).2).1 =
      [some 3, some 2, some 1, none] := by
  simpa using hp_strict_lifo Nat [1, 2, 3]

end HPStack

namespace HPStack

theorem modifyIdx_length (f : Hazard → Hazard) :
    ∀ (reg : List Hazard) (i : Nat), (modifyIdx f reg i).length = reg.length := by
  intro reg
  induction reg with
  | nil => intro i; rfl
  | cons hz rest ih =>
    intro i
    cases i with
    | zero => rfl
    | succ n => simp [modifyIdx, ih n]

theorem regGet_modifyIdx_self (f : Hazard → Hazard) :
    ∀ (reg : List Hazard) (i : Nat), i < reg.length →
      regGet (modifyIdx f reg i) i = f (regGet reg i) := by
  intro reg
  induction reg with
  | nil =>
    intro i hi
    simp at hi
  | cons hz rest ih =>
    intro i hi
    cases i with
    | zero => simp [modifyIdx, regGet]
    | succ n =>
      simp only [modifyIdx, regGet, List.getD_cons_succ]
      exact ih n (by simpa using hi)

theorem regGet_modifyIdx_ne (f : Hazard → Hazard) :
    ∀ (reg : List Hazard) (i j : Nat), j ≠ i →
      regGet (modifyIdx f reg i) j = regGet reg j := by
  intro reg
  induction reg with
  | nil => intro i j _; rfl
  | cons hz rest ih =>
    intro i j hj
    cases i with
    | zero =>
      cases j with
      | zero => exact absurd rfl hj
      | succ m => simp [modifyIdx, regGet]
    | succ n =>
      cases j with
      | zero => simp [modifyIdx, regGet]
      | succ m =>
        simp only [modifyIdx, regGet, List.getD_cons_succ]
        exact ih n m (fun e => hj (by rw [e]))

theorem regGet_mem {reg : List Hazard} {i : Nat} (hi : i < reg.length) :
    regGet reg i ∈ reg := by
  induction reg generalizing i with
  | nil => simp at hi
  | cons hz rest ih =>
    cases i with
    | zero => simp [regGet]
    | succ n =>
      simp only [regGet, List.getD_cons_succ]
      exact List.mem_cons_of_mem _ (ih (by simpa using hi))

theorem mem_regGet {reg : List Hazard} {hz : Hazard} (hm : hz ∈ reg) :
    ∃ i, i < reg.length ∧ regGet reg i = hz := by
  induction reg with
  | nil => simp at hm
  | cons hz0 rest ih =>
    rcases List.mem_cons.mp hm with he | ht
    · exact ⟨0, by simp, by simp [regGet, he.symm]⟩
    · obtain ⟨i, hi, hg⟩ := ih ht
      exact ⟨i + 1, by simpa using hi, by simpa [regGet] using hg⟩

theorem mem_gcSnapshot {reg : List Hazard} {p : Option Nat} :
    p ∈ gcSnapshot reg ↔ ∃ hz ∈ reg, hz.alive = true ∧ hz.ptr = p := by
  simp only [gcSnapshot, List.mem_filterMap]
  constructor
  · rintro ⟨hz, hm, he⟩
    by_cases hal : hz.alive
    · rw [if_pos hal] at he
      exact ⟨hz, hm, hal, Option.some.inj he⟩
    · rw [if_neg hal] at he
      exact absurd he (by simp)
  · rintro ⟨hz, hm, hal, he⟩
    exact ⟨hz, hm, by rw [if_pos hal, he]⟩

theorem hlookup_filter_of_not_mem {T : Type} {nodes : List (Nat × Node T)}
    {freed : List Nat} {a : Nat} (ha : a ∉ freed) :
    hlookup (nodes.filter (fun p => decide (p.1 ∉ freed))) a =
      hlookup nodes a := by
  induction nodes with
  | nil => rfl
  | cons p rest ih =>
    obtain ⟨k, nd⟩ := p
    by_cases hk : k ∈ freed
    · have hak : a ≠ k := fun e => ha (e ▸ hk)
      simp only [List.filter_cons]
      rw [if_neg (by simpa using hk)]
      rw [ih, hlookup_cons, if_neg hak]
    · simp only [List.filter_cons]
      rw [if_pos (by simpa using hk)]
      rw [hlookup_cons, hlookup_cons, ih]

theorem hlookup_filter_of_mem {T : Type} {nodes : List (Nat × Node T)}
    {freed : List Nat} {a : Nat} (ha : a ∈ freed) :
    hlookup (nodes.filter (fun p => decide (p.1 ∉ freed))) a = none := by
  induction nodes with
  | nil => rfl
  | cons p rest ih =>
    obtain ⟨k, nd⟩ := p
    by_cases hk : k ∈ freed
    · simp only [List.filter_cons]
      rw [if_neg (by simpa using hk)]
      exact ih
    · have hak : a ≠ k := fun e => hk (e ▸ ha)
      simp only [List.filter_cons]
      rw [if_pos (by simpa using hk)]
      rw [hlookup_cons, if_neg hak]
      exact ih

theorem gcKept_of_empty {T : Type} {st : State T} {h : StackHandle}
    (he : h.to_free = []) : gcKept st h = [] := by
  simp [gcKept, he]

theorem gcFreed_of_empty {T : Type} {st : State T} {h : StackHandle}
    (he : h.to_free = []) : gcFreed st h = [] := by
  simp [gcFreed, he]

theorem gc_eq_of_empty {T : Type} {st : State T} {h : StackHandle}
    (he : h.to_free = []) : gc st h = (st, h) := by
  simp [gc, he]

theorem not_mem_gcSnapshot_of_mem_gcFreed {T : Type} {st : State T}
    {h : StackHandle} {a : Nat} (ha : a ∈ gcFreed st h) :
    some a ∉ gcSnapshot st.handle_data := by
  have := (List.mem_filter.mp ha).2
  simpa using this

theorem mem_gcKept {T : Type} {st : State T} {h : StackHandle} {a : Nat}
    (ha : a ∈ h.to_free) (hs : some a ∈ gcSnapshot st.handle_data) :
    a ∈ gcKept st h := by
  exact List.mem_filter.mpr ⟨ha, by simpa using hs⟩

theorem not_mem_gcFreed {T : Type} {st : State T} {h : StackHandle} {a : Nat}
    (hs : some a ∈ gcSnapshot st.handle_data) : a ∉ gcFreed st h := by
  intro hm
  exact not_mem_gcSnapshot_of_mem_gcFreed hm hs

theorem gc_to_free {T : Type} (st : State T) (h : StackHandle) :
    (gc st h).2.to_free = gcKept st h := by
  by_cases he : h.to_free.isEmpty
  · rw [gc_eq_of_empty (List.isEmpty_iff.mp he)]
    show h.to_free = gcKept st h
    have he' := List.isEmpty_iff.mp he
    rw [he']
    exact (gcKept_of_empty he').symm
  · simp [gc, he]

theorem gc_hazard {T : Type} (st : State T) (h : StackHandle) :
    (gc st h).2.hazard = h.hazard := by
  by_cases he : h.to_free.isEmpty
  · rw [gc_eq_of_empty (List.isEmpty_iff.mp he)]
  · simp [gc, he]

theorem gc_nodes {T : Type} (st : State T) (h : StackHandle) :
    (gc st h).1.nodes = st.nodes.filter (fun p => decide (p.1 ∉ gcFreed st h)) := by
  by_cases he : h.to_free.isEmpty
  · rw [gc_eq_of_empty (List.isEmpty_iff.mp he)]
    rw [gcFreed_of_empty (List.isEmpty_iff.mp he)]
    exact (List.filter_eq_self.mpr (fun p _ => by simp)).symm
  · simp [gc, he]

theorem gc_handle_data {T : Type} (st : State T) (h : StackHandle) :
    (gc st h).1.handle_data = st.handle_data := by
  by_cases he : h.to_free.isEmpty
  · rw [gc_eq_of_empty (List.isEmpty_iff.mp he)]
  · simp [gc, he]

theorem gc_head {T : Type} (st : State T) (h : StackHandle) :
    (gc st h).1.head = st.head := by
  by_cases he : h.to_free.isEmpty
  · rw [gc_eq_of_empty (List.isEmpty_iff.mp he)]
  · simp [gc, he]

theorem gc_stack_alive {T : Type} (st : State T) (h : StackHandle) :
    (gc st h).1.stack_alive = st.stack_alive := by
  by_cases he : h.to_free.isEmpty
  · rw [gc_eq_of_empty (List.isEmpty_iff.mp he)]
  · simp [gc, he]

theorem gc_next_addr {T : Type} (st : State T) (h : StackHandle) :
    (gc st h).1.next_addr = st.next_addr := by
  by_cases he : h.to_free.isEmpty
  · rw [gc_eq_of_empty (List.isEmpty_iff.mp he)]
  · simp [gc, he]

theorem gc_lookup_of_not_freed {T : Type} {st : State T} {h : StackHandle}
    {a : Nat} (ha : a ∉ gcFreed st h) :
    hlookup (gc st h).1.nodes a = hlookup st.nodes a := by
  rw [gc_nodes]
  exact hlookup_filter_of_not_mem ha

theorem gc_lookup_protected {T : Type} {st : State T} {h : StackHandle}
    {a : Nat} (hp : ∃ hz ∈ st.handle_data, hz.alive = true ∧ hz.ptr = some a) :
    hlookup (gc st h).1.nodes a = hlookup st.nodes a :=
  gc_lookup_of_not_freed (not_mem_gcFreed (mem_gcSnapshot.mpr hp))

/-- C2: `gc` on an empty retire list returns at once with everything
unchanged; otherwise (and in general) it takes one snapshot of the alive
records' published addresses, keeps exactly the retired addresses that occur
in the snapshot, frees exactly the retired nodes whose address does not, and
touches neither the head, the registry, nor any node whose address an alive
hazard record publishes at the snapshot. -/
theorem hp_gc_spec (T : Type) (st : State T) (h : StackHandle) :
    (h.to_free = [] → gc st h = (st, h)) ∧
    (gc st h).2.to_free =
      h.to_free.filter (fun a => decide (some a ∈ gcSnapshot st.handle_data)) ∧
    (gc st h).2.hazard = h.hazard ∧
    (gc st h).1.nodes =
      st.nodes.filter (fun p => decide (p.1 ∉ gcFreed st h)) ∧
    (∀ a ∈ gcFreed st h, hlookup (gc st h).1.nodes a = none) ∧
    (∀ a, a ∉ gcFreed st h →
      hlookup (gc st h).1.nodes a = hlookup st.nodes a) ∧
    (gc st h).1.head = st.head ∧
    (gc st h).1.handle_data = st.handle_data ∧
    (gc st h).1.stack_alive = st.stack_alive ∧
    (∀ a, (∃ hz ∈ st.handle_data, hz.alive = true ∧ hz.ptr = some a) →
      hlookup (gc st h).1.nodes a = hlookup st.nodes a) := by
  refine ⟨gc_eq_of_empty, gc_to_free st h, gc_hazard st h, gc_nodes st h,
    ?_, ?_, gc_head st h, gc_handle_data st h, gc_stack_alive st h, ?_⟩
  · intro a ha
    rw [gc_nodes]
    exact hlookup_filter_of_mem ha
  · intro a ha
    exact gc_lookup_of_not_freed ha
  · intro a hp
    exact gc_lookup_protected hp

end HPStack

namespace HPStack

/-- C6: `pop` returns the absent result exactly when the head pointer is null
at its (here: only) read of `head`, the absent result is the distinguished
`none` value rather than an error, and an absent `pop` changes no state at
all — no hazard publication and no retire-list change.  The hypothesis says
the head pointer, when non-null, points at an allocated node, which every
reachable state of the stack satisfies. -/
theorem hp_pop_absent_signal (T : Type) (st : State T) (h : StackHandle)
    (hwf : ∀ a, st.head = some a → (hlookup st.nodes a).isSome = true) :
    ((pop st h).1 = none ↔ st.head = none) ∧
    (st.head = none → pop st h = (none, st, h)) := by
  cases hh : st.head with
  | none =>
    refine ⟨?_, fun _ => pop_none h hh⟩
    rw [pop_none h hh]
    simp
  | some a =>
    obtain ⟨nd, hnd⟩ := Option.isSome_iff_exists.mp (hwf a hh)
    obtain ⟨v, t⟩ := nd
    rw [pop_some h hh hnd]
    exact ⟨by simp, fun habs => absurd habs (by simp)⟩

/-- C6 witness: on the freshly created (empty) stack, `pop` returns `none`
and leaves the state untouched. -/
theorem hp_pop_absent_signal_witness :
    ((pop (StackHandle.new Nat).1 (StackHandle.new Nat).2).1 = none ↔
        (StackHandle.new Nat).1.head = none) ∧
    ((StackHandle.new Nat).1.head = none →
      pop (StackHandle.new Nat).1 (StackHandle.new Nat).2 =
        (none, (StackHandle.new Nat).1, (StackHandle.new Nat).2)) :=
  hp_pop_absent_signal Nat (StackHandle.new Nat).1 (StackHandle.new Nat).2
    (fun a ha => by simp [StackHandle.new] at ha)

theorem clone_to_free {T : Type} (st : State T) (h : StackHandle) :
    (clone st h).2.to_free = [] := by
  cases hfd : findDeadIdx st.handle_data <;> simp [clone, hfd]

theorem clone_head {T : Type} (st : State T) (h : StackHandle) :
    (clone st h).1.head = st.head := by
  cases hfd : findDeadIdx st.handle_data <;> simp [clone, hfd]

theorem clone_nodes {T : Type} (st : State T) (h : StackHandle) :
    (clone st h).1.nodes = st.nodes := by
  cases hfd : findDeadIdx st.handle_data <;> simp [clone, hfd]

theorem clone_next_addr {T : Type} (st : State T) (h : StackHandle) :
    (clone st h).1.next_addr = st.next_addr := by
  cases hfd : findDeadIdx st.handle_data <;> simp [clone, hfd]

theorem clone_stack_alive {T : Type} (st : State T) (h : StackHandle) :
    (clone st h).1.stack_alive = st.stack_alive := by
  cases hfd : findDeadIdx st.handle_data <;> simp [clone, hfd]

theorem clone_of_some {T : Type} {st : State T} (h : StackHandle) {i : Nat}
    (hf : findDeadIdx st.handle_data = some i) :
    clone st h =
      ({ st with
          handle_data := modifyIdx (fun hz => { hz with ptr := none, alive := true })
            st.handle_data i },
       { hazard := i, to_free := [] }) := by
  simp [clone, hf]

theorem clone_of_none {T : Type} {st : State T} (h : StackHandle)
    (hf : findDeadIdx st.handle_data = none) :
    clone st h =
      ({ st with handle_data := st.handle_data ++ [Hazard.new] },
       { hazard := st.handle_data.length, to_free := [] }) := by
  simp [clone, hf]

/-- C7: a handle produced by `clone` shares the underlying stack state with
its parent (head, heap, allocator all unchanged) and starts with an empty
retire list; in particular Scenario 2 holds: after `create A; push(A, 10);
B = duplicate(A)`, `pop(B)` returns `10` and a subsequent `pop(A)` returns
the absent result. -/
theorem hp_clone_shares_stack (T : Type) (st : State T) (h : StackHandle) :
    (clone st h).2.to_free = [] ∧
    (clone st h).1.head = st.head ∧
    (clone st h).1.nodes = st.nodes ∧
    (clone st h).1.next_addr = st.next_addr ∧
    scnPopB.1 = some 10 ∧
    scnPopA.1 = none :=
  ⟨clone_to_free st h, clone_head st h, clone_nodes st h,
   clone_next_addr st h, by decide, by decide⟩

theorem findDeadIdx_some {reg : List Hazard} {i : Nat}
    (hf : findDeadIdx reg = some i) :
    i < reg.length ∧ (regGet reg i).alive = false := by
  induction reg generalizing i with
  | nil => simp [findDeadIdx] at hf
  | cons hz rest ih =>
    rw [findDeadIdx] at hf
    by_cases hal : hz.alive
    · rw [if_pos hal] at hf
      cases hrec : findDeadIdx rest with
      | none =>
        rw [hrec] at hf
        simp at hf
      | some j =>
        rw [hrec] at hf
        have hji : j + 1 = i := by simpa using hf
        obtain ⟨hlt, hdead⟩ := ih hrec
        subst hji
        refine ⟨by simpa using Nat.succ_lt_succ hlt, ?_⟩
        simpa [regGet] using hdead
    · rw [if_neg hal] at hf
      have h0 : i = 0 := (Option.some.inj hf).symm
      subst h0
      simp only [Bool.not_eq_true] at hal
      exact ⟨by simp, by simpa [regGet] using hal⟩

theorem findDeadIdx_none {reg : List Hazard} (hf : findDeadIdx reg = none) :
    ∀ hz ∈ reg, hz.alive = true := by
  induction reg with
  | nil =>
    intro hz hm
    simp at hm
  | cons hz0 rest ih =>
    rw [findDeadIdx] at hf
    by_cases hal : hz0.alive
    · rw [if_pos hal] at hf
      intro hz hm
      rcases List.mem_cons.mp hm with he | ht
      · rw [he]
        exact hal
      · exact ih (Option.map_eq_none'.mp hf) hz ht
    · rw [if_neg hal] at hf
      exact absurd hf (by simp)

theorem drainLoop_spec {T : Type} (fuel : Nat) :
    ∀ (st : State T) (h : StackHandle) (st2 : State T) (h2 : StackHandle),
      drainLoop fuel st h = some (st2, h2) →
      h2.to_free = [] ∧
      st2.handle_data = st.handle_data ∧
      st2.head = st.head ∧
      st2.stack_alive = st.stack_alive ∧
      st2.next_addr = st.next_addr ∧
      (∀ a, a ∉ h.to_free → hlookup st2.nodes a = hlookup st.nodes a) := by
  induction fuel with
  | zero =>
    intro st h st2 h2 hd
    rw [drainLoop] at hd
    by_cases he : h.to_free.isEmpty
    · rw [if_pos he] at hd
      injection hd with hd
      obtain ⟨he1, he2⟩ := Prod.ext_iff.mp hd
      subst he1
      subst he2
      exact ⟨List.isEmpty_iff.mp he, rfl, rfl, rfl, rfl, fun a _ => rfl⟩
    · rw [if_neg he] at hd
      exact absurd hd (by simp)
  | succ fuel ih =>
    intro st h st2 h2 hd
    rw [drainLoop] at hd
    by_cases he : h.to_free.isEmpty
    · rw [if_pos he] at hd
      injection hd with hd
      obtain ⟨he1, he2⟩ := Prod.ext_iff.mp hd
      subst he1
      subst he2
      exact ⟨List.isEmpty_iff.mp he, rfl, rfl, rfl, rfl, fun a _ => rfl⟩
    · rw [if_neg he] at hd
      have hd' : drainLoop fuel (gc st h).1 (gc st h).2 = some (st2, h2) := hd
      obtain ⟨hemp, hreg, hhead, halv, hna, hlook⟩ := ih _ _ _ _ hd'
      refine ⟨hemp, by rw [hreg, gc_handle_data], by rw [hhead, gc_head],
        by rw [halv, gc_stack_alive], by rw [hna, gc_next_addr], ?_⟩
      intro a ha
      have h1 : a ∉ (gc st h).2.to_free := by
        rw [gc_to_free]
        intro hmem
        exact ha (List.mem_of_mem_filter hmem)
      rw [hlook a h1]
      refine gc_lookup_of_not_freed ?_
      intro hmem
      exact ha (List.mem_of_mem_filter hmem)

theorem dropHandle_cases {T : Type} (fuel : Nat) (st : State T)
    (h : StackHandle) :
    dropHandle fuel st h =
      (drainLoop fuel (markDead st h) h).map
        (fun q =>
          if q.1.handle_data.all (fun hz => !hz.alive)
          then { q.1 with stack_alive := false } else q.1) := by
  unfold dropHandle
  cases hq : drainLoop fuel (markDead st h) h with
  | none => rfl
  | some q =>
    obtain ⟨st2, h2⟩ := q
    show (if st2.handle_data.all (fun hz => !hz.alive)
        then some { st2 with stack_alive := false } else some st2) =
      some (if st2.handle_data.all (fun hz => !hz.alive)
        then { st2 with stack_alive := false } else st2)
    by_cases hall : st2.handle_data.all (fun hz => !hz.alive)
    · rw [if_pos hall, if_pos hall]
    · rw [if_neg hall, if_neg hall]

end HPStack

namespace HPStack

theorem pop_handle_data_length {T : Type} (st : State T) (h : StackHandle) :
    (pop st h).2.1.handle_data.length = st.handle_data.length := by
  cases hh : st.head with
  | none => rw [pop_none h hh]
  | some a =>
    cases hl : hlookup st.nodes a with
    | none => simp [pop, hh, hl]
    | some nd =>
      obtain ⟨vv, t⟩ := nd
      rw [pop_some h hh hl]
      exact modifyIdx_length _ _ _

theorem dropHandle_registry {T : Type} {fuel : Nat} {st st' : State T}
    {h : StackHandle} (hs : dropHandle fuel st h = some st') :
    st'.handle_data =
      modifyIdx (fun hz => { hz with alive := false }) st.handle_data h.hazard ∧
    st'.head = st.head ∧
    st'.next_addr = st.next_addr ∧
    (∀ a, a ∉ h.to_free → hlookup st'.nodes a = hlookup st.nodes a) ∧
    (∃ q, drainLoop fuel (markDead st h) h = some q ∧ q.2.to_free = []) ∧
    (st'.stack_alive = false ↔
      (st.stack_alive = false ∨ ∀ hz ∈ st'.handle_data, hz.alive = false)) := by
  rw [dropHandle_cases] at hs
  obtain ⟨q, hq, hmap⟩ := Option.map_eq_some'.mp hs
  obtain ⟨st2, h2⟩ := q
  obtain ⟨hemp, hreg, hhead, halv2, hna, hlook⟩ :=
    drainLoop_spec fuel (markDead st h) h st2 h2 hq
  have hreg' : st2.handle_data =
      modifyIdx (fun hz => { hz with alive := false }) st.handle_data h.hazard :=
    hreg
  have hhead' : st2.head = st.head := hhead
  have hna' : st2.next_addr = st.next_addr := hna
  have halv2' : st2.stack_alive = st.stack_alive := halv2
  by_cases hall : st2.handle_data.all (fun hz => !hz.alive)
  · rw [if_pos hall] at hmap
    subst hmap
    refine ⟨hreg', hhead', hna', hlook, ⟨(st2, h2), hq, hemp⟩, ?_⟩
    constructor
    · intro _
      refine Or.inr ?_
      intro hz hm
      have := List.all_eq_true.mp hall hz hm
      simpa using this
    · intro _
      rfl
  · rw [if_neg hall] at hmap
    subst hmap
    refine ⟨hreg', hhead', hna', hlook, ⟨(st2, h2), hq, hemp⟩, ?_⟩
    constructor
    · intro hsa
      rw [halv2'] at hsa
      exact Or.inl hsa
    · intro hcase
      rcases hcase with hsa | hdead
      · rw [halv2']
        exact hsa
      · refine absurd (List.all_eq_true.mpr ?_) hall
        intro hz hm
        simp [hdead hz hm]

/-- C4: `release` (the `Drop` impl) first marks the handle's own hazard
record dead, then repeatedly calls `gc` until the private retire list is
empty (here: the fuelled drain loop succeeds with an empty list), and
afterwards tears the shared stack state down if and only if every hazard
record in the registry is dead; in particular the shared state is never
destroyed while some registry entry is still alive. -/
theorem hp_drop_teardown_iff (T : Type) (fuel : Nat) (st st' : State T)
    (h : StackHandle) (hidx : h.hazard < st.handle_data.length)
    (halive : st.stack_alive = true)
    (hs : dropHandle fuel st h = some st') :
    st'.handle_data.length = st.handle_data.length ∧
    (regGet st'.handle_data h.hazard).alive = false ∧
    (∀ i, i ≠ h.hazard → regGet st'.handle_data i = regGet st.handle_data i) ∧
    (∃ q, drainLoop fuel (markDead st h) h = some q ∧ q.2.to_free = []) ∧
    (st'.stack_alive = false ↔ ∀ hz ∈ st'.handle_data, hz.alive = false) := by
  obtain ⟨hreg, hhead, hna, hlook, hdrain, hiff⟩ := dropHandle_registry hs
  refine ⟨by rw [hreg, modifyIdx_length], ?_, ?_, hdrain, ?_⟩
  · rw [hreg, regGet_modifyIdx_self _ _ _ hidx]
  · intro i hi
    rw [hreg, regGet_modifyIdx_ne _ _ _ _ hi]
  · rw [hiff]
    constructor
    · intro hcase
      rcases hcase with hsa | hdead
      · rw [halive] at hsa
        simp at hsa
      · exact hdead
    · intro hdead
      exact Or.inr hdead

/-- C4 witness: dropping the only handle after a single push tears the
shared state down (every record is dead) with its record marked dead. -/
theorem hp_drop_teardown_iff_witness :
    (regGet wDropped.handle_data 0).alive = false ∧
    (wDropped.stack_alive = false ↔
      ∀ hz ∈ wDropped.handle_data, hz.alive = false) := by
  have hmain := hp_drop_teardown_iff Nat 0 wPush.1 wDropped wPush.2
    (by decide) (by decide) (by decide)
  exact ⟨hmain.2.1, hmain.2.2.2.2⟩

/-- C5: the registry never shrinks under any operation: `push` and `gc`
leave it untouched, `pop` only stores into an existing record, `clone`
either recycles the first dead record (resetting its publication to null and
marking it alive, all other entries untouched, length unchanged) or — 
exactly when every record is alive — appends one brand-new record, and
`drop` only marks the handle's own record dead without removing anything.
Since the length grows only when all records are alive, the registry length
never exceeds the historical peak number of concurrently live handles. -/
theorem hp_registry_never_shrinks (T : Type) (st st' : State T)
    (h : StackHandle) (v : T) (fuel : Nat)
    (hs : dropHandle fuel st h = some st') :
    (push st h v).1.handle_data = st.handle_data ∧
    (pop st h).2.1.handle_data.length = st.handle_data.length ∧
    (gc st h).1.handle_data = st.handle_data ∧
    st'.handle_data.length = st.handle_data.length ∧
    (∀ i, i ≠ h.hazard → regGet st'.handle_data i = regGet st.handle_data i) ∧
    (match findDeadIdx st.handle_data with
     | some i =>
       (clone st h).1.handle_data.length = st.handle_data.length ∧
       (clone st h).2.hazard = i ∧
       (regGet st.handle_data i).alive = false ∧
       regGet (clone st h).1.handle_data i = { alive := true, ptr := none } ∧
       (∀ j, j ≠ i →
         regGet (clone st h).1.handle_data j = regGet st.handle_data j)
     | none =>
       (clone st h).1.handle_data = st.handle_data ++ [Hazard.new] ∧
       (clone st h).2.hazard = st.handle_data.length ∧
       (∀ hz ∈ st.handle_data, hz.alive = true)) := by
  obtain ⟨hreg, hhead, hna, hlook, hdrain, hiff⟩ := dropHandle_registry hs
  refine ⟨rfl, pop_handle_data_length st h, gc_handle_data st h,
    by rw [hreg, modifyIdx_length], ?_, ?_⟩
  · intro i hi
    rw [hreg, regGet_modifyIdx_ne _ _ _ _ hi]
  · cases hfd : findDeadIdx st.handle_data with
    | some i =>
      obtain ⟨hlt, hdead⟩ := findDeadIdx_some hfd
      rw [clone_of_some h hfd]
      refine ⟨modifyIdx_length _ _ _, rfl, hdead, ?_, ?_⟩
      · show regGet (modifyIdx
            (fun hz => { hz with ptr := none, alive := true })
            st.handle_data i) i = { alive := true, ptr := none }
        rw [regGet_modifyIdx_self _ _ _ hlt]
      · intro j hj
        show regGet (modifyIdx
            (fun hz => { hz with ptr := none, alive := true })
            st.handle_data i) j = regGet st.handle_data j
        rw [regGet_modifyIdx_ne _ _ _ _ hj]
    | none =>
      rw [clone_of_none h hfd]
      exact ⟨rfl, rfl, findDeadIdx_none hfd⟩

/-- C5 witness: on a freshly created stack (one alive record) `gc` leaves
the registry untouched and dropping the handle keeps the registry length. -/
theorem hp_registry_never_shrinks_witness :
    (gc (StackHandle.new Nat).1 (StackHandle.new Nat).2).1.handle_data =
      (StackHandle.new Nat).1.handle_data ∧
    wNewDropped.handle_data.length =
      (StackHandle.new Nat).1.handle_data.length := by
  have hmain := hp_registry_never_shrinks Nat (StackHandle.new Nat).1
    wNewDropped (StackHandle.new Nat).2 3 0 (by decide)
  exact ⟨hmain.2.2.1, hmain.2.2.2.1⟩

end HPStack

namespace HPStack

/-- C8: after every successful `pop` on a live handle, the handle's own
hazard record still publishes the address of the node just popped — the
source clears the publication only after a failed compare-and-swap attempt,
never on success (and in this sequential model no attempt fails) — so a `gc`
on the same handle with no intervening pop always keeps the most recently
popped node in the retire list and does not free it. -/
theorem hp_pop_publication_retained (T : Type) (st : State T)
    (h : StackHandle) (v : T) (hidx : h.hazard < st.handle_data.length)
    (halive : (regGet st.handle_data h.hazard).alive = true)
    (hv : (pop st h).1 = some v) :
    ∃ a, st.head = some a ∧
      regGet (pop st h).2.1.handle_data h.hazard =
        { alive := true, ptr := some a } ∧
      (pop st h).2.2.to_free = h.to_free ++ [a] ∧
      a ∈ (gc (pop st h).2.1 (pop st h).2.2).2.to_free ∧
      hlookup (gc (pop st h).2.1 (pop st h).2.2).1.nodes a =
        hlookup (pop st h).2.1.nodes a := by
  cases hh : st.head with
  | none =>
    rw [pop_none h hh] at hv
    exact absurd hv (by simp)
  | some a =>
    cases hl : hlookup st.nodes a with
    | none =>
      rw [show pop st h = (none, st, h) from by simp [pop, hh, hl]] at hv
      exact absurd hv (by simp)
    | some nd =>
      obtain ⟨vv, t⟩ := nd
      have hpop := pop_some h hh hl
      have hlen1 : (pop st h).2.1.handle_data.length = st.handle_data.length :=
        pop_handle_data_length st h
      have hregget : regGet (pop st h).2.1.handle_data h.hazard =
          { alive := true, ptr := some a } := by
        rw [hpop]
        show regGet (modifyIdx (fun hz => { hz with ptr := some a })
          st.handle_data h.hazard) h.hazard = { alive := true, ptr := some a }
        rw [regGet_modifyIdx_self _ _ _ hidx]
        cases hg : regGet st.handle_data h.hazard with
        | mk al pt =>
          rw [hg] at halive
          have hal : al = true := halive
          subst hal
          rfl
      have hsnap : some a ∈ gcSnapshot (pop st h).2.1.handle_data := by
        refine mem_gcSnapshot.mpr
          ⟨regGet (pop st h).2.1.handle_data h.hazard, regGet_mem ?_, ?_, ?_⟩
        · rw [hlen1]
          exact hidx
        · rw [hregget]
        · rw [hregget]
      have htf : (pop st h).2.2.to_free = h.to_free ++ [a] := by rw [hpop]
      refine ⟨a, rfl, hregget, htf, ?_, ?_⟩
      · rw [gc_to_free]
        refine mem_gcKept ?_ hsnap
        rw [htf]
        simp
      · exact gc_lookup_of_not_freed (not_mem_gcFreed hsnap)

/-- C8 witness: push 5 on a fresh handle, pop it, then `gc`: the popped
node's address stays published, stays in the retire list, and its node is
not freed. -/
theorem hp_pop_publication_retained_witness :
    ∃ a, wPush.1.head = some a ∧
      regGet (pop wPush.1 wPush.2).2.1.handle_data wPush.2.hazard =
        { alive := true, ptr := some a } ∧
      (pop wPush.1 wPush.2).2.2.to_free = wPush.2.to_free ++ [a] ∧
      a ∈ (gc (pop wPush.1 wPush.2).2.1 (pop wPush.1 wPush.2).2.2).2.to_free ∧
      hlookup (gc (pop wPush.1 wPush.2).2.1
          (pop wPush.1 wPush.2).2.2).1.nodes a =
        hlookup (pop wPush.1 wPush.2).2.1.nodes a :=
  hp_pop_publication_retained Nat wPush.1 wPush.2 5 (by decide) (by decide)
    (by decide)

theorem drainLoop_one_of_gc_empty {T : Type} {st : State T} {h : StackHandle}
    (hone : (gc st h).2.to_free = []) : (drainLoop 1 st h).isSome = true := by
  rw [drainLoop]
  by_cases he : h.to_free.isEmpty
  · rw [if_pos he]
    rfl
  · rw [if_neg he]
    show (drainLoop 0 (gc st h).1 (gc st h).2).isSome = true
    rw [drainLoop, if_pos (by rw [hone]; rfl)]
    rfl

/-- C9: because `drop` clears the handle's own alive flag before entering
its drain loop, the handle's own lingering hazard publication never blocks
its own drain: for any handle whose retired addresses are published by no
OTHER alive hazard record, a single `gc` pass after the mark leaves the
retire list empty, and the release drain succeeds with fuel 1. -/
theorem hp_drop_drain_single_pass (T : Type) (st : State T) (h : StackHandle)
    (hidx : h.hazard < st.handle_data.length)
    (hprot : ∀ a ∈ h.to_free, ∀ i, i < st.handle_data.length →
      i ≠ h.hazard → (regGet st.handle_data i).alive = true →
      (regGet st.handle_data i).ptr ≠ some a) :
    (gc (markDead st h) h).2.to_free = [] ∧
    (dropHandle 1 st h).isSome = true := by
  have hkept : gcKept (markDead st h) h = [] := by
    rw [gcKept]
    refine List.filter_eq_nil_iff.mpr ?_
    intro a ha
    simp only [decide_eq_true_eq]
    intro hmem
    obtain ⟨hz, hzmem, hzalive, hzptr⟩ := mem_gcSnapshot.mp hmem
    obtain ⟨i, hilt, hig⟩ := mem_regGet hzmem
    have hilt' : i < st.handle_data.length := by
      rw [← modifyIdx_length (fun hz => { hz with alive := false })
        st.handle_data h.hazard]
      exact hilt
    by_cases hih : i = h.hazard
    · have hself : regGet (markDead st h).handle_data i =
          { regGet st.handle_data h.hazard with alive := false } := by
        rw [hih]
        exact regGet_modifyIdx_self _ _ _ hidx
      rw [hself] at hig
      rw [← hig] at hzalive
      simp at hzalive
    · have hne : regGet (markDead st h).handle_data i = regGet st.handle_data i :=
        regGet_modifyIdx_ne _ _ _ _ hih
      rw [hne] at hig
      rw [← hig] at hzalive hzptr
      exact hprot a ha i hilt' hih hzalive hzptr
  have hone : (gc (markDead st h) h).2.to_free = [] := by
    rw [gc_to_free]
    exact hkept
  refine ⟨hone, ?_⟩
  have hds := drainLoop_one_of_gc_empty hone
  rw [dropHandle_cases]
  cases hdl : drainLoop 1 (markDead st h) h with
  | none =>
    rw [hdl] at hds
    simp at hds
  | some q => simp

/-- C9 witness: a handle that popped the single pushed node (its own record
still publishes that address, no other record exists) drains in one pass. -/
theorem hp_drop_drain_single_pass_witness :
    (gc (markDead wPop.2.1 wPop.2.2) wPop.2.2).2.to_free = [] ∧
    (dropHandle 1 wPop.2.1 wPop.2.2).isSome = true :=
  hp_drop_drain_single_pass Nat wPop.2.1 wPop.2.2 (by decide) (by decide)

theorem reach_mono {T : Type} {nodes nodes2 : List (Nat × Node T)}
    {p : Option Nat} {a : Nat} (hr : Reach nodes p a) :
    (∀ b, Reach nodes p b → hlookup nodes2 b = hlookup nodes b) →
    Reach nodes2 p a := by
  induction hr with
  | here hl =>
    intro H
    rename_i a0 nd
    exact Reach.here (by rw [H a0 (Reach.here hl)]; exact hl)
  | there hl hr2 ih =>
    intro H
    rename_i a0 b0 nd
    have hl' : hlookup nodes2 a0 = some nd := by
      rw [H a0 (Reach.here hl)]
      exact hl
    exact @Reach.there T nodes2 a0 b0 nd hl'
      (ih (fun c hc => H c (Reach.there hl hc)))

/-- C10: when the last handle's release tears the shared state down, it
frees only the `Stack` structure itself: the registry keeps every hazard
record's storage (same length; the model never deletes records), and every
node reachable from `head` — none of which is in the dropping handle's
retire list — is still allocated, with the whole reachable chain intact. -/
theorem hp_teardown_frame (T : Type) (fuel : Nat) (st st' : State T)
    (h : StackHandle) (hs : dropHandle fuel st h = some st')
    (hdisj : ∀ a, Reach st.nodes st.head a → a ∉ h.to_free) :
    st'.handle_data.length = st.handle_data.length ∧
    st'.head = st.head ∧
    (∀ a, Reach st.nodes st.head a →
      hlookup st'.nodes a = hlookup st.nodes a) ∧
    (∀ a, Reach st.nodes st.head a → Reach st'.nodes st'.head a) := by
  obtain ⟨hreg, hhead, hna, hlook, hdrain, hiff⟩ := dropHandle_registry hs
  have hpres : ∀ a, Reach st.nodes st.head a →
      hlookup st'.nodes a = hlookup st.nodes a :=
    fun a hr => hlook a (hdisj a hr)
  refine ⟨by rw [hreg, modifyIdx_length], hhead, hpres, ?_⟩
  intro a hr
  rw [hhead]
  exact reach_mono hr hpres

/-- C10 witness: dropping the only handle right after a push keeps the
pushed node (reachable from `head`) and the hazard record storage. -/
theorem hp_teardown_frame_witness :
    wDropped.handle_data.length = wPush.1.handle_data.length ∧
    wDropped.head = wPush.1.head := by
  have hmain := hp_teardown_frame Nat 0 wPush.1 wDropped wPush.2 (by decide)
    (fun a _ => List.not_mem_nil a)
  exact ⟨hmain.1, hmain.2.1⟩

end HPStack

namespace HPStack

theorem revNodes_zero (T : Type) (v : T) : revNodes T v 0 = [] := rfl

theorem revNodes_succ (T : Type) (v : T) (n : Nat) :
    revNodes T v (n + 1) =
      (n, { data := v, tail := none }) :: revNodes T v n := by
  simp [revNodes, List.range_succ, List.reverse_append]

theorem cycles_succ {T : Type} (v : T) (n : Nat) :
    cycles v (n + 1) =
      ({ handle_data := [{ alive := true, ptr := some n }], head := none,
         nodes := revNodes T v (n + 1), next_addr := n + 1,
         stack_alive := true },
       { hazard := 0, to_free := List.range (n + 1) }) := by
  induction n with
  | zero =>
    show pushPopCycle v (StackHandle.new T) = _
    simp [pushPopCycle, StackHandle.new, Hazard.new, push, pop, hlookup,
      modifyIdx, revNodes_succ, revNodes_zero, List.range_succ]
  | succ n ih =>
    show pushPopCycle v (cycles v (n + 1)) = _
    rw [ih]
    simp [pushPopCycle, push, pop, hlookup, modifyIdx, revNodes_succ,
      List.range_succ]

theorem filter_range_mem_single (n : Nat) :
    (List.range (n + 1)).filter (fun a => decide (some a ∈ [some n])) =
      [n] := by
  rw [List.range_succ, List.filter_append]
  have h1 : (List.range n).filter
      (fun a => decide (some a ∈ [some n])) = [] := by
    refine List.filter_eq_nil_iff.mpr ?_
    intro a ha
    have halt := List.mem_range.mp ha
    simp only [List.mem_singleton, Option.some.injEq, decide_eq_true_eq]
    omega
  rw [h1]
  simp

theorem filter_range_not_mem (n : Nat) :
    (List.range (n + 1)).filter (fun a => decide (some a ∉ [some n])) =
      List.range n := by
  rw [List.range_succ, List.filter_append]
  have h1 : (List.range n).filter
      (fun a => decide (some a ∉ [some n])) = List.range n := by
    refine List.filter_eq_self.mpr ?_
    intro a ha
    have halt := List.mem_range.mp ha
    simp only [List.mem_singleton, Option.some.injEq, decide_eq_true_eq]
    omega
  have h2 : [n].filter (fun a => decide (some a ∉ [some n])) = [] := by
    simp
  rw [h1, h2, List.append_nil]

theorem revNodes_filter (T : Type) (v : T) (n : Nat) :
    (revNodes T v (n + 1)).filter (fun p => decide (p.1 ∉ List.range n)) =
      [(n, { data := v, tail := none })] := by
  rw [revNodes_succ, List.filter_cons]
  rw [if_pos (by simp)]
  have h1 : (revNodes T v n).filter
      (fun p => decide (p.1 ∉ List.range n)) = [] := by
    refine List.filter_eq_nil_iff.mpr ?_
    intro p hp
    obtain ⟨i, hi, hpe⟩ := List.mem_map.mp hp
    have hin : i < n := List.mem_range.mp (List.mem_reverse.mp hi)
    subst hpe
    simp [List.mem_range]
    exact hin
  rw [h1]

/-- C3 counterexample, refuting the claim as stated: a handle performs two
push/pop cycles (pushing the value 7) without calling `gc`, then calls `gc`
exactly once.  The claim says this single call reclaims all nodes in the
retire list; in fact the address of the most recently popped node (1) is
still in the retire list afterwards and its node is still allocated,
because the handle's own hazard record still publishes it. -/
theorem hp_cycles_single_gc_counterexample :
    (gc (cycles (7 : Nat) 2).1 (cycles (7 : Nat) 2).2).2.to_free = [1] ∧
    hlookup (gc (cycles (7 : Nat) 2).1 (cycles (7 : Nat) 2).2).1.nodes 1 =
      some { data := 7, tail := none } := by
  decide

/-- C3 amended: for any handle that performs `n + 1` push/pop cycles without
ever calling `gc` and then calls `gc` exactly once, that single call
reclaims every node in the retire list except the most recently popped one,
whose address the handle's own hazard record still publishes: that node
alone stays retired and allocated.  The stack's head is null, so no
still-reachable node exists and none is touched. -/
theorem hp_cycles_single_gc (T : Type) (v : T) (n : Nat) :
    (gc (cycles v (n + 1)).1 (cycles v (n + 1)).2).2.to_free = [n] ∧
    (gc (cycles v (n + 1)).1 (cycles v (n + 1)).2).1.nodes =
      [(n, { data := v, tail := none })] ∧
    regGet (cycles v (n + 1)).1.handle_data 0 =
      { alive := true, ptr := some n } ∧
    (gc (cycles v (n + 1)).1 (cycles v (n + 1)).2).1.head = none := by
  rw [cycles_succ]
  have hsn : gcSnapshot [{ alive := true, ptr := some n }] = [some n] := rfl
  refine ⟨?_, ?_, rfl, ?_⟩
  · rw [gc_to_free]
    show (List.range (n + 1)).filter
      (fun a => decide (some a ∈ gcSnapshot [{ alive := true, ptr := some n }]))
        = [n]
    rw [hsn]
    exact filter_range_mem_single n
  · rw [gc_nodes]
    have hfreed : gcFreed
        ({ handle_data := [{ alive := true, ptr := some n }], head := none,
           nodes := revNodes T v (n + 1), next_addr := n + 1,
           stack_alive := true } : State T)
        { hazard := 0, to_free := List.range (n + 1) } = List.range n := by
      show (List.range (n + 1)).filter
        (fun a =>
          decide (some a ∉ gcSnapshot [{ alive := true, ptr := some n }]))
          = List.range n
      rw [hsn]
      exact filter_range_not_mem n
    rw [hfreed]
    exact revNodes_filter T v n
  · rw [gc_head]

end HPStack
